import Mathlib

/-!
# Verification of the batch-queue client (`src/client/main.go`)

Shallow embedding of the queue/drain engine of the Go client:

* `handleProcess` embeds `HandleProcess` (the enqueue HTTP handler);
* `processQueue` embeds `ProcessQueue` (one drain iteration: prune the
  quota window, compute the remaining limit, submit a prefix of the queue,
  and remove it on confirmed success);
* `step` / `run` embed the drain goroutine of `RunProcess` (the
  `errorsCount` streak bookkeeping and the stop-at-10 rule), interleaved
  with enqueue requests.

Go's `Item` is `struct{}` (an opaque token whose identity is positional);
it is modelled as `Nat` so that order and identity of items are trackable.
The `processedItems` map (`map[int64]int`, timestamp ↦ count) is modelled
as an association list with overwrite-on-insert, which is what a Go map
assignment does.  `time.Now().UnixNano()` is modelled by an explicit
`now : Int` parameter per iteration (the Go code samples the clock during
the prune loop and again when recording; the model uses one sample per
iteration).  The outcome of the remote submission (`client.Do` plus the
server's `Success` flag) is modelled by a boolean oracle `ok` per
iteration; `json.Marshal` and `http.NewRequest` on this fixed payload and
constant URL cannot fail and have no failure path in the model.
-/

/-- Model of Go `Item` (`type Item struct{}`): an opaque token whose identity
is positional; modelled as `Nat` to track order and identity. -/
abbrev Item := Nat

/-- Model of `LimitsResponse`: the quota fetched once at startup —
`Number` (`uint64`, max items) and `Duration` (`time.Duration`,
nanoseconds). -/
structure Limits where
  number : Nat
  duration : Int
deriving Repr, DecidableEq

/-- The mutable client state shared by the handlers and the drain loop:
the global `Queue.Batch`, the drain loop's `processedItems` map
(timestamp ↦ count, modelled as an association list), and the global
`TotalProcessed` counter. -/
structure ClientState where
  queue : List Item
  processedItems : List (Int × Nat)
  totalProcessed : Nat
deriving Repr, DecidableEq

/-- Outcome of one `ProcessQueue` call: the early `return nil` on an empty
queue, the `return nil` when `limit <= 0`, an error from the submission
(transport error or `!process.Success`), or a confirmed success. -/
inductive PQResult where
  | emptyQueue
  | quotaExhausted
  | submitFailed
  | submitOk
deriving Repr, DecidableEq

/-- `ProcessQueue` returns an error exactly on the failed-submission path
(`client.Do` error or an unsuccessful `ProcessResponse`). -/
def PQResult.isErr : PQResult → Bool
  | .submitFailed => true
  | _ => false

/-- The prune pass of `ProcessQueue`'s `for timestamp, item := range
processedItems` loop: an entry is deleted when
`time.Now().UnixNano() > timestamp+int64(limits.Duration)`, i.e. kept when
`now ≤ timestamp + duration`. -/
def prune (limits : Limits) (now : Int) (ps : List (Int × Nat)) : List (Int × Nat) :=
  ps.filter fun p => decide (now ≤ p.1 + limits.duration)

/-- Sum of the counts of a list of window entries (the survivors'
contribution `limit -= item` accumulated over the prune loop). -/
def countsSum (ps : List (Int × Nat)) : Nat :=
  (ps.map Prod.snd).sum

/-- `processedItems[now] = n`: Go map assignment, i.e. overwrite any
existing entry with the same timestamp key. -/
def record (now : Int) (n : Nat) (ps : List (Int × Nat)) : List (Int × Nat) :=
  (now, n) :: ps.filter fun p => decide (p.1 ≠ now)

/-- The removal after a confirmed submission (lines 267–273 of
`main.go`): `if len(Queue.Batch) <= limit { Queue.Batch = []Item{} } else
{ Queue.Batch = Queue.Batch[limit:] }`. -/
def removePrefix (n : Nat) (q : List Item) : List Item :=
  if q.length ≤ n then [] else q.drop n

/-- Result record of one `processQueue` call: the new client state, the
outcome, and the batch that was marshalled and posted (`Queue.Batch[:limit]`;
empty when no submission was attempted). -/
structure PQOut where
  state : ClientState
  result : PQResult
  submitted : List Item
deriving Repr, DecidableEq

/-- One call of Go `ProcessQueue(client, &limits, processedItems)`.

Control flow of the source: return `nil` if the queue is empty; prune the
window map and compute `limit = int(limits.Number) - Σ surviving counts`;
return `nil` if `limit <= 0`; cap `limit` by the queue length; marshal
`Queue.Batch[:limit]`; **record `processedItems[now] = limit` before the
POST**; on a transport error or a non-`Success` response return the error
with the queue untouched; on success remove the prefix and add `limit` to
`TotalProcessed`. -/
def processQueue (limits : Limits) (ok : Bool) (now : Int) (s : ClientState) : PQOut :=
  if s.queue.length = 0 then
    ⟨s, .emptyQueue, []⟩
  else
    let pruned := prune limits now s.processedItems
    let limit : Int := (limits.number : Int) - (countsSum pruned : Int)
    if limit ≤ 0 then
      ⟨{ s with processedItems := pruned }, .quotaExhausted, []⟩
    else
      let n : Nat := min limit.toNat s.queue.length
      let batch := s.queue.take n
      let ps' := record now n pruned
      if ok then
        ⟨⟨removePrefix n s.queue, ps', s.totalProcessed + n⟩, .submitOk, batch⟩
      else
        ⟨{ s with processedItems := ps' }, .submitFailed, batch⟩

/-- Model of `ProcessResponse` as sent back by `HandleProcess`. -/
structure ProcessResponse where
  success : Bool
  error : String
deriving Repr, DecidableEq

/-- Go `HandleProcess` after a successful JSON bind: reject an empty item
list with `"No items provided"` and no state change; otherwise append the
items to the tail of `Queue.Batch`. -/
def handleProcess (items : List Item) (s : ClientState) : ClientState × ProcessResponse :=
  if items.length = 0 then
    (s, ⟨false, "No items provided"⟩)
  else
    ({ s with queue := s.queue ++ items }, ⟨true, ""⟩)

/-- State of the drain goroutine started by `RunProcess`, together with
the shared client state and two ghost logs used to state FIFO and counter
properties: `drained` is the concatenation of the batches removed by
successful submissions, `enqueuedAll` the concatenation of the accepted
enqueues.  `totalFailed` / `totalOk` count submission outcomes over the
whole run. -/
structure DrainState where
  cs : ClientState
  errorsCount : Nat
  stopped : Bool
  drained : List Item
  enqueuedAll : List Item
  totalFailed : Nat
  totalOk : Nat
deriving Repr, DecidableEq

/-- The initial state: empty queue, empty window map, zero counters, the
goroutine running. -/
def initState : DrainState :=
  ⟨⟨[], [], 0⟩, 0, false, [], [], 0, 0⟩

/-- An observable event: an enqueue request hitting `HandleProcess`, or
one iteration of the drain goroutine's `for` loop with clock reading `now`
and submission outcome `ok`. -/
inductive Event where
  | enqueue (items : List Item)
  | drain (ok : Bool) (now : Int)
deriving Repr, DecidableEq

/-- One event applied to the system.  The drain case embeds the goroutine
body in `RunProcess`: if the goroutine has returned, nothing happens;
otherwise `ProcessQueue` runs, `errorsCount` is incremented on an error
and reset to 0 otherwise, and the goroutine returns for good when
`errorsCount >= 10`. -/
def step (limits : Limits) (e : Event) (ds : DrainState) : DrainState :=
  match e with
  | .enqueue items =>
      let out := handleProcess items ds.cs
      { ds with
        cs := out.1
        enqueuedAll := if out.2.success then ds.enqueuedAll ++ items else ds.enqueuedAll }
  | .drain ok now =>
      if ds.stopped then ds
      else
        let out := processQueue limits ok now ds.cs
        let ec : Nat := if out.result = .submitFailed then ds.errorsCount + 1 else 0
        { cs := out.state
          errorsCount := ec
          stopped := decide (10 ≤ ec)
          drained := if out.result = .submitOk then ds.drained ++ out.submitted else ds.drained
          enqueuedAll := ds.enqueuedAll
          totalFailed := if out.result = .submitFailed then ds.totalFailed + 1 else ds.totalFailed
          totalOk := if out.result = .submitOk then ds.totalOk + 1 else ds.totalOk }

/-- A whole run: fold `step` over a list of events. -/
def run (limits : Limits) : List Event → DrainState → DrainState
  | [], ds => ds
  | e :: es, ds => run limits es (step limits e ds)

/-- Sum of the counts of window entries with timestamps in the half-open
window `(t - D, t]` — the quantity bounded by the quota-non-violation
property. -/
def windowSum (limits : Limits) (t : Int) (ps : List (Int × Nat)) : Nat :=
  countsSum (ps.filter fun p => decide (t - limits.duration < p.1 ∧ p.1 ≤ t))

/-- Modelled from the spec: `RemainingCapacity(now)` as worded in §4.2 —
prune entries with `timestamp + D < now`, sum counts of the survivors,
return `N - sum` clamped to `≥ 0`.  Used to compare the spec's wording
with what `processQueue` computes. -/
def specRemainingCapacity (limits : Limits) (now : Int) (ps : List (Int × Nat)) : Nat :=
  ((limits.number : Int) - (countsSum (ps.filter fun p => decide (¬ p.1 + limits.duration < now)) : Int)).toNat

/-- The (decidable) condition that each of a list of drain iterations,
run in sequence from a given state, takes the failed-submission path. -/
def allFail (limits : Limits) : List Int → DrainState → Bool
  | [], _ => true
  | now :: rest, ds =>
      decide ((processQueue limits false now ds.cs).result = .submitFailed) &&
      allFail limits rest (step limits (.drain false now) ds)

/-! ## Basic lemmas about the queue and window primitives -/

/-- The removal branch of lines 267–273 is extensionally `List.drop`. -/
theorem removePrefix_eq_drop (n : Nat) (q : List Item) :
    removePrefix n q = q.drop n := by
  unfold removePrefix
  split
  · exact (List.drop_eq_nil_of_le (by omega)).symm
  · rfl

theorem countsSum_nil : countsSum [] = 0 := rfl

theorem countsSum_cons (p : Int × Nat) (ps : List (Int × Nat)) :
    countsSum (p :: ps) = p.2 + countsSum ps := by
  simp [countsSum]

/-- Filtering with a stronger predicate gives a smaller sum of counts. -/
theorem countsSum_filter_mono (f g : Int × Nat → Bool) (ps : List (Int × Nat))
    (h : ∀ p, f p = true → g p = true) :
    countsSum (ps.filter f) ≤ countsSum (ps.filter g) := by
  induction ps with
  | nil => simp
  | cons p rest ih =>
    by_cases hf : f p
    · have hg := h p hf
      simp only [List.filter_cons, hf, hg, if_pos, countsSum_cons]
      omega
    · by_cases hg : g p <;>
        simp only [List.filter_cons, hf, hg, if_pos, if_neg, Bool.false_eq_true,
          ite_false, ite_true, countsSum_cons] <;> omega

/-- Dropping entries can only lower the sum of counts. -/
theorem countsSum_filter_le (f : Int × Nat → Bool) (ps : List (Int × Nat)) :
    countsSum (ps.filter f) ≤ countsSum ps := by
  have h := countsSum_filter_mono f (fun _ => true) ps (fun _ _ => rfl)
  simpa using h

/-- The in-window sum is bounded by the total sum of counts. -/
theorem windowSum_le_countsSum (L : Limits) (t : Int) (ps : List (Int × Nat)) :
    windowSum L t ps ≤ countsSum ps :=
  countsSum_filter_le _ ps

/-- The in-window sum can only shrink when entries are filtered away. -/
theorem windowSum_filter_le (L : Limits) (t : Int) (f : Int × Nat → Bool)
    (ps : List (Int × Nat)) :
    windowSum L t (ps.filter f) ≤ windowSum L t ps := by
  unfold windowSum
  rw [List.filter_filter]
  exact countsSum_filter_mono _ _ ps (fun p hp => by
    simp only [Bool.and_eq_true] at hp
    exact hp.1)

/-! ## Case analysis of `processQueue` -/

/-- The three-way case split of one `ProcessQueue` call: empty queue,
exhausted quota, or a submission attempt of
`n = min (limit.toNat) (queue length)` items whose outcome follows the
oracle `ok`. -/
theorem processQueue_spec (L : Limits) (ok : Bool) (now : Int) (s : ClientState) :
    (s.queue.length = 0 ∧ processQueue L ok now s = ⟨s, .emptyQueue, []⟩)
    ∨ (s.queue.length ≠ 0 ∧
        (L.number : Int) - (countsSum (prune L now s.processedItems) : Int) ≤ 0 ∧
        processQueue L ok now s =
          ⟨{ s with processedItems := prune L now s.processedItems }, .quotaExhausted, []⟩)
    ∨ (s.queue.length ≠ 0 ∧
        0 < (L.number : Int) - (countsSum (prune L now s.processedItems) : Int) ∧
        processQueue L ok now s =
          if ok then
            ⟨⟨removePrefix (min ((L.number : Int) - (countsSum (prune L now s.processedItems) : Int)).toNat s.queue.length) s.queue,
              record now (min ((L.number : Int) - (countsSum (prune L now s.processedItems) : Int)).toNat s.queue.length) (prune L now s.processedItems),
              s.totalProcessed + min ((L.number : Int) - (countsSum (prune L now s.processedItems) : Int)).toNat s.queue.length⟩,
              .submitOk,
              s.queue.take (min ((L.number : Int) - (countsSum (prune L now s.processedItems) : Int)).toNat s.queue.length)⟩
          else
            ⟨{ s with processedItems := record now (min ((L.number : Int) - (countsSum (prune L now s.processedItems) : Int)).toNat s.queue.length) (prune L now s.processedItems) },
              .submitFailed,
              s.queue.take (min ((L.number : Int) - (countsSum (prune L now s.processedItems) : Int)).toNat s.queue.length)⟩) := by
  by_cases h0 : s.queue.length = 0
  · exact Or.inl ⟨h0, by simp [processQueue, h0]⟩
  · by_cases h1 : (L.number : Int) - (countsSum (prune L now s.processedItems) : Int) ≤ 0
    · exact Or.inr (Or.inl ⟨h0, h1, by simp [processQueue, h0, h1]⟩)
    · refine Or.inr (Or.inr ⟨h0, by omega, ?_⟩)
      cases ok <;> simp [processQueue, h0, h1]

/-- On the failed-submission path the queue and the processed counter are
untouched, the window map has gained the entry for the attempt, and the
attempted batch is still a prefix of the queue. -/
theorem pq_fail_frame (L : Limits) (ok : Bool) (now : Int) (s : ClientState)
    (h : (processQueue L ok now s).result = .submitFailed) :
    (processQueue L ok now s).state.queue = s.queue ∧
    (processQueue L ok now s).state.totalProcessed = s.totalProcessed ∧
    (processQueue L ok now s).state.processedItems =
      record now (processQueue L ok now s).submitted.length (prune L now s.processedItems) ∧
    (processQueue L ok now s).submitted <+: s.queue := by
  rcases processQueue_spec L ok now s with ⟨h0, he⟩ | ⟨h0, h1, he⟩ | ⟨h0, h1, he⟩
  · rw [he] at h; simp at h
  · rw [he] at h; simp at h
  · cases ok with
    | true => rw [he] at h; simp at h
    | false =>
      simp only [if_neg Bool.false_ne_true] at he
      rw [he]
      refine ⟨rfl, rfl, ?_, List.take_prefix _ _⟩
      simp only [List.length_take]
      congr 1
      omega

/-- The batch a drain iteration submits never exceeds the current queue:
`limit` is capped by `len(Queue.Batch)` before the prefix is read. -/
theorem pq_submitted_le (L : Limits) (ok : Bool) (now : Int) (s : ClientState) :
    (processQueue L ok now s).submitted.length ≤ s.queue.length ∧
    (processQueue L ok now s).submitted = s.queue.take (processQueue L ok now s).submitted.length := by
  rcases processQueue_spec L ok now s with ⟨h0, he⟩ | ⟨h0, h1, he⟩ | ⟨h0, h1, he⟩
  · rw [he]; simp
  · rw [he]; simp
  · have hlen : (s.queue.take (min ((L.number : Int) - (countsSum (prune L now s.processedItems) : Int)).toNat s.queue.length)).length
        = min ((L.number : Int) - (countsSum (prune L now s.processedItems) : Int)).toNat s.queue.length := by
      simp only [List.length_take]
      omega
    cases ok <;> simp only [if_pos, if_neg Bool.false_ne_true] at he <;>
      rw [he] <;> simp only [hlen] <;>
      exact ⟨by omega, by trivial⟩

/-! ## C3: no loss on failure -/

/-- C3: every drain iteration whose submission attempt fails leaves the
batch queue exactly as it was — the attempted items (a prefix of the
queue) stay in place, in order and count; removal happens only after a
confirmed successful submission. -/
theorem c3_no_loss_on_failure (L : Limits) (ok : Bool) (now : Int) (s : ClientState)
    (h : (processQueue L ok now s).result = .submitFailed) :
    (processQueue L ok now s).state.queue = s.queue ∧
    (processQueue L ok now s).submitted <+: (processQueue L ok now s).state.queue := by
  obtain ⟨hq, -, -, hpre⟩ := pq_fail_frame L ok now s h
  exact ⟨hq, hq ▸ hpre⟩

/-- Witness for C3 at a concrete failing iteration: one queued item,
quota 3, the remote submission fails. -/
theorem c3_witness :
    (processQueue ⟨3, 100⟩ false 0 ⟨[0], [], 0⟩).state.queue = [0] ∧
    (processQueue ⟨3, 100⟩ false 0 ⟨[0], [], 0⟩).submitted <+:
      (processQueue ⟨3, 100⟩ false 0 ⟨[0], [], 0⟩).state.queue :=
  c3_no_loss_on_failure ⟨3, 100⟩ false 0 ⟨[0], [], 0⟩ (by decide)

/-! ## C2: the quota tracker is written before the submission outcome -/

/-- C2 counterexample: a failing iteration does change the quota tracker.
With quota `(3, 100)`, one queued item and a failing remote submission,
`ProcessQueue` stores `processedItems[0] = 1` (line 238 runs before the
POST), so the window map goes from `[]` to `[(0, 1)]` although the
submission failed. -/
theorem c2_counterexample :
    (processQueue ⟨3, 100⟩ false 0 ⟨[0], [], 0⟩).result = .submitFailed ∧
    (processQueue ⟨3, 100⟩ false 0 ⟨[0], [], 0⟩).state.processedItems = [(0, 1)] ∧
    (processQueue ⟨3, 100⟩ false 0 ⟨[0], [], 0⟩).state.processedItems ≠
      (⟨[0], [], 0⟩ : ClientState).processedItems := by
  refine ⟨by decide, by decide, by decide⟩

/-- C2 amended: the window entry `(now, n)` is recorded on every iteration
that reaches the submission stage, *before* the outcome of the remote call
is known; in particular a failing iteration leaves the tracker equal to
`record now n (prune now …)` — pruned and extended — not unchanged. -/
theorem c2_record_precedes_outcome (L : Limits) (ok : Bool) (now : Int) (s : ClientState)
    (h : (processQueue L ok now s).result = .submitFailed) :
    (processQueue L ok now s).state.processedItems =
      record now (processQueue L ok now s).submitted.length (prune L now s.processedItems) :=
  (pq_fail_frame L ok now s h).2.2.1

/-- Witness for the amended C2 at the concrete failing iteration of the
counterexample. -/
theorem c2_witness :
    (processQueue ⟨3, 100⟩ false 0 ⟨[0], [], 0⟩).state.processedItems =
      record 0 (processQueue ⟨3, 100⟩ false 0 ⟨[0], [], 0⟩).submitted.length
        (prune ⟨3, 100⟩ 0 []) :=
  c2_record_precedes_outcome ⟨3, 100⟩ false 0 ⟨[0], [], 0⟩ (by decide)

/-! ## C6: the error streak counter -/

/-- C6 counterexample: the streak counter is reset by an iteration that
makes no submission attempt.  With quota `(3, 100)`: after enqueueing 3
items, one failing submission puts the counter at 1; the next iteration
finds the window full (the failure recorded 3), makes no submission
attempt and no successful submission, yet resets the counter to 0. -/
theorem c6_counterexample :
    (run ⟨3, 100⟩ [.enqueue [0, 1, 2], .drain false 0] initState).errorsCount = 1 ∧
    (processQueue ⟨3, 100⟩ true 1
        (run ⟨3, 100⟩ [.enqueue [0, 1, 2], .drain false 0] initState).cs).result =
      .quotaExhausted ∧
    (run ⟨3, 100⟩ [.enqueue [0, 1, 2], .drain false 0, .drain true 1] initState).errorsCount
      = 0 := by
  refine ⟨by decide, by decide, by decide⟩

/-- C6 amended: `errorsCount` is incremented exactly when the iteration's
submission attempt fails, and reset to 0 on *every* iteration on which
`ProcessQueue` returns `nil` — a successful submission, an empty queue, or
exhausted quota — not only on success. -/
theorem c6_streak_counter (L : Limits) (ok : Bool) (now : Int) (ds : DrainState)
    (h : ds.stopped = false) :
    ((processQueue L ok now ds.cs).result = .submitFailed →
      (step L (.drain ok now) ds).errorsCount = ds.errorsCount + 1) ∧
    ((processQueue L ok now ds.cs).result ≠ .submitFailed →
      (step L (.drain ok now) ds).errorsCount = 0) := by
  constructor <;> intro hr <;> simp [step, h, hr]

/-- Witness for the amended C6: a concrete failing iteration increments
the counter, and a concrete quota-exhausted iteration resets it. -/
theorem c6_witness :
    (step ⟨3, 100⟩ (.drain false 0) ⟨⟨[0, 1, 2], [], 0⟩, 0, false, [], [0, 1, 2], 0, 0⟩).errorsCount = 1 ∧
    (step ⟨3, 100⟩ (.drain true 1) ⟨⟨[0, 1, 2], [(0, 3)], 0⟩, 1, false, [], [0, 1, 2], 1, 0⟩).errorsCount = 0 :=
  ⟨(c6_streak_counter ⟨3, 100⟩ false 0 ⟨⟨[0, 1, 2], [], 0⟩, 0, false, [], [0, 1, 2], 0, 0⟩ rfl).1 (by decide),
   (c6_streak_counter ⟨3, 100⟩ true 1 ⟨⟨[0, 1, 2], [(0, 3)], 0⟩, 1, false, [], [0, 1, 2], 1, 0⟩ rfl).2 (by decide)⟩

/-! ## C1: streak termination -/

/-- One failing drain iteration: the queue and the processed counter are
unchanged, the streak counter increments, and the goroutine returns
exactly when the counter reaches 10. -/
theorem step_drain_fail (L : Limits) (ok : Bool) (now : Int) (ds : DrainState)
    (hstop : ds.stopped = false)
    (hfail : (processQueue L ok now ds.cs).result = .submitFailed) :
    (step L (.drain ok now) ds).cs.queue = ds.cs.queue ∧
    (step L (.drain ok now) ds).cs.totalProcessed = ds.cs.totalProcessed ∧
    (step L (.drain ok now) ds).errorsCount = ds.errorsCount + 1 ∧
    (step L (.drain ok now) ds).stopped = decide (10 ≤ ds.errorsCount + 1) := by
  obtain ⟨hq, ht, -, -⟩ := pq_fail_frame L ok now ds.cs hfail
  simp [step, hstop, hfail, hq, ht]

/-- Running a block of consecutive failing drain iterations: the queue and
the processed counter stay put, the streak counter adds the block length,
and the goroutine has returned exactly if the total reached 10. -/
theorem allFail_run_aux (L : Limits) (nows : List Int) : ∀ ds : DrainState,
    ds.stopped = false → ds.errorsCount < 10 → ds.errorsCount + nows.length ≤ 10 →
    allFail L nows ds = true →
    (run L (nows.map (Event.drain false)) ds).cs.queue = ds.cs.queue ∧
    (run L (nows.map (Event.drain false)) ds).cs.totalProcessed = ds.cs.totalProcessed ∧
    (run L (nows.map (Event.drain false)) ds).errorsCount = ds.errorsCount + nows.length ∧
    (run L (nows.map (Event.drain false)) ds).stopped
      = decide (10 ≤ ds.errorsCount + nows.length) := by
  induction nows with
  | nil =>
    intro ds h1 h2 _ _
    refine ⟨rfl, rfl, rfl, ?_⟩
    rw [show (run L ([].map (Event.drain false)) ds) = ds from rfl, h1]
    simp only [List.length_nil, Nat.add_zero]
    symm
    simp only [decide_eq_false_iff_not]
    omega
  | cons now rest ih =>
    intro ds h1 h2 h3 hfail
    rw [allFail, Bool.and_eq_true, decide_eq_true_eq] at hfail
    rw [List.length_cons] at h3
    obtain ⟨hf, hrest⟩ := hfail
    obtain ⟨hq, ht, hec, hst⟩ := step_drain_fail L false now ds h1 hf
    simp only [List.map_cons, run, List.length_cons]
    by_cases hr : rest = []
    · subst hr
      simp only [List.map_nil, run, List.length_nil, Nat.zero_add]
      refine ⟨hq, ht, hec, ?_⟩
      rw [hst]
    · have hlen : 1 ≤ rest.length := List.length_pos.mpr hr
      have hst' : (step L (.drain false now) ds).stopped = false := by
        rw [hst]
        simp only [decide_eq_false_iff_not]
        omega
      have hec10 : (step L (.drain false now) ds).errorsCount < 10 := by rw [hec]; omega
      have hb : (step L (.drain false now) ds).errorsCount + rest.length ≤ 10 := by
        rw [hec]; omega
      obtain ⟨q2, t2, e2, s2⟩ := ih (step L (.drain false now) ds) hst' hec10 hb hrest
      refine ⟨q2.trans hq, t2.trans ht, ?_, ?_⟩
      · rw [e2, hec]; omega
      · rw [s2, hec]
        exact decide_eq_decide.mpr (by omega)

/-- C1 amended: after 10 failed submission attempts in ten *consecutive
loop iterations* (no intervening iteration of any other outcome — the
code resets the streak on every `nil` return, including iterations that
make no attempt), the goroutine returns: the state is `stopped`, the
queued items are still in the queue, the processed counter is unchanged,
and every later drain iteration is a no-op (no further submission
attempts). -/
theorem c1_streak_termination (L : Limits) (nows : List Int) (ds : DrainState)
    (hstop : ds.stopped = false) (hec : ds.errorsCount = 0)
    (hlen : nows.length = 10) (hfail : allFail L nows ds = true) :
    (run L (nows.map (Event.drain false)) ds).stopped = true ∧
    (run L (nows.map (Event.drain false)) ds).cs.queue = ds.cs.queue ∧
    (run L (nows.map (Event.drain false)) ds).cs.totalProcessed = ds.cs.totalProcessed ∧
    ∀ (ok : Bool) (now : Int),
      step L (.drain ok now) (run L (nows.map (Event.drain false)) ds)
        = run L (nows.map (Event.drain false)) ds := by
  obtain ⟨hq, ht, he, hs⟩ := allFail_run_aux L nows ds hstop (by omega) (by omega) hfail
  have hstopped : (run L (nows.map (Event.drain false)) ds).stopped = true := by
    rw [hs, hec, hlen]
    decide
  refine ⟨hstopped, hq, ht, fun ok now => ?_⟩
  simp [step, hstopped]

/-- Witness for the amended C1: 3 items enqueued, quota `(30, 100)` large
enough that each of ten consecutive iterations attempts (and fails); the
loop stops with the 3 items still queued and the counter at 0 — the
concrete Scenario C. -/
theorem c1_witness :
    (run ⟨30, 100⟩ (([0, 1, 2, 3, 4, 5, 6, 7, 8, 9] : List Int).map (Event.drain false))
        ⟨⟨[0, 1, 2], [], 0⟩, 0, false, [], [0, 1, 2], 0, 0⟩).stopped = true ∧
    (run ⟨30, 100⟩ (([0, 1, 2, 3, 4, 5, 6, 7, 8, 9] : List Int).map (Event.drain false))
        ⟨⟨[0, 1, 2], [], 0⟩, 0, false, [], [0, 1, 2], 0, 0⟩).cs.queue = [0, 1, 2] ∧
    (run ⟨30, 100⟩ (([0, 1, 2, 3, 4, 5, 6, 7, 8, 9] : List Int).map (Event.drain false))
        ⟨⟨[0, 1, 2], [], 0⟩, 0, false, [], [0, 1, 2], 0, 0⟩).cs.totalProcessed = 0 ∧
    ∀ (ok : Bool) (now : Int),
      step ⟨30, 100⟩ (.drain ok now)
          (run ⟨30, 100⟩ (([0, 1, 2, 3, 4, 5, 6, 7, 8, 9] : List Int).map (Event.drain false))
            ⟨⟨[0, 1, 2], [], 0⟩, 0, false, [], [0, 1, 2], 0, 0⟩)
        = run ⟨30, 100⟩ (([0, 1, 2, 3, 4, 5, 6, 7, 8, 9] : List Int).map (Event.drain false))
            ⟨⟨[0, 1, 2], [], 0⟩, 0, false, [], [0, 1, 2], 0, 0⟩ :=
  c1_streak_termination ⟨30, 100⟩ [0, 1, 2, 3, 4, 5, 6, 7, 8, 9]
    ⟨⟨[0, 1, 2], [], 0⟩, 0, false, [], [0, 1, 2], 0, 0⟩ rfl rfl (by decide) (by decide)

/-- A run refuting C1 as stated: quota `(3, 100)`, 3 items enqueued; the
remote submission fails at times `101·k` and the intervening iterations at
`101·k + 1` find the window full (the failure recorded 3 items) and make
no attempt — but reset the streak counter. -/
def c1trace : List Event :=
  Event.enqueue [0, 1, 2] ::
    ((List.range 10).flatMap fun k =>
      [Event.drain false (101 * (k : Int)), Event.drain false (101 * (k : Int) + 1)])

/-- C1 counterexample: an execution in which 10 consecutive failed
submission attempts occur with no intervening successful submission
(`totalFailed = 10`, `totalOk = 0`), yet the drain loop has *not* reached
`Stopped` and still performs a further submission attempt afterwards —
because the quota-exhausted iterations between the failures reset
`errorsCount` although they neither attempt nor succeed. -/
theorem c1_counterexample :
    (run ⟨3, 100⟩ c1trace initState).totalFailed = 10 ∧
    (run ⟨3, 100⟩ c1trace initState).totalOk = 0 ∧
    (run ⟨3, 100⟩ c1trace initState).stopped = false ∧
    (run ⟨3, 100⟩ c1trace initState).errorsCount = 0 ∧
    (processQueue ⟨3, 100⟩ false 1010 (run ⟨3, 100⟩ c1trace initState).cs).result
      = .submitFailed := by
  refine ⟨by decide, by decide, by decide, by decide, by decide⟩

/-! ## C4: quota non-violation -/

/-- Splitting the in-window sum at a cons cell. -/
theorem windowSum_cons (L : Limits) (t : Int) (p : Int × Nat) (ps : List (Int × Nat)) :
    windowSum L t (p :: ps)
      = (if t - L.duration < p.1 ∧ p.1 ≤ t then p.2 else 0) + windowSum L t ps := by
  by_cases hc : t - L.duration < p.1 ∧ p.1 ≤ t <;>
    simp [windowSum, List.filter_cons, hc, countsSum_cons]

/-- `record now n` over the pruned window keeps every D-length window sum
within the quota if `n` fits the remaining capacity at `now`. -/
theorem quotaInv_record (L : Limits) (now : Int) (n : Nat) (ps : List (Int × Nat))
    (hinv : ∀ t : Int, windowSum L t ps ≤ L.number)
    (hn : n + countsSum (prune L now ps) ≤ L.number) :
    ∀ t : Int, windowSum L t (record now n (prune L now ps)) ≤ L.number := by
  intro t
  rw [show record now n (prune L now ps)
      = (now, n) :: ((prune L now ps).filter fun p => decide (p.1 ≠ now)) from rfl]
  rw [windowSum_cons]
  have h2 : windowSum L t ((prune L now ps).filter fun p => decide (p.1 ≠ now))
      ≤ windowSum L t (prune L now ps) :=
    windowSum_filter_le L t _ (prune L now ps)
  have h3 : windowSum L t (prune L now ps) ≤ windowSum L t ps :=
    windowSum_filter_le L t _ ps
  have h4 := hinv t
  have h5 : windowSum L t ((prune L now ps).filter fun p => decide (p.1 ≠ now))
      ≤ countsSum (prune L now ps) :=
    le_trans (windowSum_le_countsSum L t _) (countsSum_filter_le _ _)
  split <;> omega

/-- One drain iteration keeps every D-length window sum within the quota:
the recorded count is bounded by `N` minus the surviving counts. -/
theorem quotaInv_processQueue (L : Limits) (ok : Bool) (now : Int) (s : ClientState)
    (hinv : ∀ t : Int, windowSum L t s.processedItems ≤ L.number) :
    ∀ t : Int, windowSum L t (processQueue L ok now s).state.processedItems ≤ L.number := by
  rcases processQueue_spec L ok now s with ⟨h0, he⟩ | ⟨h0, h1, he⟩ | ⟨h0, h1, he⟩
  · rw [he]; exact hinv
  · rw [he]
    intro t
    exact le_trans (windowSum_filter_le L t _ s.processedItems) (hinv t)
  · have hn : min ((L.number : Int) - (countsSum (prune L now s.processedItems) : Int)).toNat
          s.queue.length + countsSum (prune L now s.processedItems) ≤ L.number := by
      omega
    have hrec := quotaInv_record L now
      (min ((L.number : Int) - (countsSum (prune L now s.processedItems) : Int)).toNat
        s.queue.length) s.processedItems hinv hn
    cases ok with
    | true =>
      simp only [if_pos] at he
      rw [he]
      exact hrec
    | false =>
      simp only [if_neg Bool.false_ne_true] at he
      rw [he]
      exact hrec

/-- Neither enqueue requests nor drain iterations can push a window sum
over the quota. -/
theorem quotaInv_step (L : Limits) (e : Event) (ds : DrainState)
    (hinv : ∀ t : Int, windowSum L t ds.cs.processedItems ≤ L.number) :
    ∀ t : Int, windowSum L t (step L e ds).cs.processedItems ≤ L.number := by
  cases e with
  | enqueue items =>
    intro t
    have hpi : (step L (.enqueue items) ds).cs.processedItems = ds.cs.processedItems := by
      by_cases hi : items.length = 0 <;> simp [step, handleProcess, hi]
    rw [hpi]
    exact hinv t
  | drain ok now =>
    by_cases hs : ds.stopped
    · intro t
      rw [show step L (.drain ok now) ds = ds from by simp [step, hs]]
      exact hinv t
    · intro t
      have hcs : (step L (.drain ok now) ds).cs = (processQueue L ok now ds.cs).state := by
        simp [step, hs]
      rw [hcs]
      exact quotaInv_processQueue L ok now ds.cs hinv t

/-- The quota invariant holds along every run. -/
theorem quotaInv_run (L : Limits) (events : List Event) : ∀ ds : DrainState,
    (∀ t : Int, windowSum L t ds.cs.processedItems ≤ L.number) →
    ∀ t : Int, windowSum L t (run L events ds).cs.processedItems ≤ L.number := by
  induction events with
  | nil => intro ds h; exact h
  | cons e es ih => intro ds h; exact ih (step L e ds) (quotaInv_step L e ds h)

/-- C4: quota non-violation — in every state reachable from startup by any
interleaving of enqueues and drain iterations, and for every time `t`, the
sum of the counts of window entries with timestamps in `(t - D, t]` is at
most `N`; equivalently, every submission attempt of `n` items satisfies
`n ≤ N - (sum of unexpired entry counts)` at that moment. -/
theorem c4_quota_non_violation (L : Limits) :
    (∀ (events : List Event) (t : Int),
      windowSum L t (run L events initState).cs.processedItems ≤ L.number) ∧
    (∀ (ok : Bool) (now : Int) (s : ClientState),
      ((processQueue L ok now s).result = .submitFailed ∨
        (processQueue L ok now s).result = .submitOk) →
      (processQueue L ok now s).submitted.length
        + countsSum (prune L now s.processedItems) ≤ L.number) := by
  constructor
  · intro events t
    exact quotaInv_run L events initState
      (fun u => by simp [initState, windowSum, countsSum]) t
  · intro ok now s hat
    rcases processQueue_spec L ok now s with ⟨h0, he⟩ | ⟨h0, h1, he⟩ | ⟨h0, h1, he⟩
    · rw [he] at hat; simp at hat
    · rw [he] at hat; simp at hat
    · cases ok with
      | false =>
        simp only [if_neg Bool.false_ne_true] at he
        rw [he]
        simp only [List.length_take]
        omega
      | true =>
        simp only [if_pos] at he
        rw [he]
        simp only [List.length_take]
        omega

/-! ## C5 and C9: FIFO order and the processed counter -/

/-- The processed counter after one `ProcessQueue` call: unchanged unless
the submission succeeded, in which case it grows by exactly the size of
the submitted batch. -/
theorem pq_tp_eq (L : Limits) (ok : Bool) (now : Int) (s : ClientState) :
    (processQueue L ok now s).state.totalProcessed
      = s.totalProcessed +
        (if (processQueue L ok now s).result = .submitOk
          then (processQueue L ok now s).submitted.length else 0) := by
  rcases processQueue_spec L ok now s with ⟨h0, he⟩ | ⟨h0, h1, he⟩ | ⟨h0, h1, he⟩
  · rw [he]; simp
  · rw [he]; simp
  · cases ok with
    | false =>
      simp only [if_neg Bool.false_ne_true] at he
      rw [he]; simp
    | true =>
      simp only [if_pos] at he
      rw [he]
      simp only [List.length_take, if_pos, ite_true]
      omega

/-- Every step preserves the two ghost equations: the drained log followed
by the current queue is exactly the accepted-enqueue log, and the
processed counter equals the length of the drained log. -/
theorem ghostInv_step (L : Limits) (e : Event) (ds : DrainState)
    (h1 : ds.drained ++ ds.cs.queue = ds.enqueuedAll)
    (h2 : ds.cs.totalProcessed = ds.drained.length) :
    (step L e ds).drained ++ (step L e ds).cs.queue = (step L e ds).enqueuedAll ∧
    (step L e ds).cs.totalProcessed = (step L e ds).drained.length := by
  cases e with
  | enqueue items =>
    by_cases hi : items.length = 0 <;>
      simp [step, handleProcess, hi, h2, ← h1, List.append_assoc]
  | drain ok now =>
    by_cases hs : ds.stopped
    · simp [step, hs, h1, h2]
    · rcases processQueue_spec L ok now ds.cs with ⟨h0, he⟩ | ⟨h0, hq, he⟩ | ⟨h0, hq, he⟩
      · simp [step, hs, he, h1, h2]
      · simp [step, hs, he, h1, h2]
      · cases ok with
        | false =>
          simp only [if_neg Bool.false_ne_true] at he
          simp [step, hs, he, h1, h2]
        | true =>
          simp only [if_pos] at he
          constructor
          · simp only [step, hs, if_neg Bool.false_ne_true, he]
            simp only [removePrefix_eq_drop, if_pos, ite_true]
            rw [List.append_assoc, List.take_append_drop, h1]
          · simp only [step, hs, if_neg Bool.false_ne_true, he]
            simp only [List.length_append, List.length_take, h2, if_pos, ite_true]
            omega

/-- The ghost equations hold along every run. -/
theorem ghostInv_run (L : Limits) (events : List Event) : ∀ ds : DrainState,
    ds.drained ++ ds.cs.queue = ds.enqueuedAll →
    ds.cs.totalProcessed = ds.drained.length →
    (run L events ds).drained ++ (run L events ds).cs.queue = (run L events ds).enqueuedAll ∧
    (run L events ds).cs.totalProcessed = (run L events ds).drained.length := by
  induction events with
  | nil => intro ds h1 h2; exact ⟨h1, h2⟩
  | cons e es ih =>
    intro ds h1 h2
    obtain ⟨g1, g2⟩ := ghostInv_step L e ds h1 h2
    exact ih (step L e ds) g1 g2

/-- C5: FIFO order preservation — over every interleaving of enqueues and
drain iterations from startup, the concatenation of the batches removed
by successful drains followed by the remaining queue equals the
concatenation of the accepted enqueues in order; in particular the
drained items form a prefix of the enqueued sequence, with no duplication
and no gaps. -/
theorem c5_fifo_order (L : Limits) (events : List Event) :
    (run L events initState).drained ++ (run L events initState).cs.queue
      = (run L events initState).enqueuedAll ∧
    (run L events initState).drained <+: (run L events initState).enqueuedAll := by
  have h := ghostInv_run L events initState rfl rfl
  exact ⟨h.1, ⟨_, h.1⟩⟩

/-- C9: the Total Processed Counter equals the cumulative number of items
removed by confirmed submissions along every run, never decreases at any
step, and is incremented by exactly the submitted batch size on a
successful submission and by nothing else; Scenario A: quota
`(10, 15s)`, enqueue 5 items, one successful drain cycle — queue empty,
counter 5. -/
theorem c9_total_processed (L : Limits) :
    (∀ events : List Event,
      (run L events initState).cs.totalProcessed
        = (run L events initState).drained.length) ∧
    (∀ (e : Event) (ds : DrainState),
      ds.cs.totalProcessed ≤ (step L e ds).cs.totalProcessed) ∧
    (∀ (ok : Bool) (now : Int) (s : ClientState),
      (processQueue L ok now s).state.totalProcessed
        = s.totalProcessed +
          (if (processQueue L ok now s).result = .submitOk
            then (processQueue L ok now s).submitted.length else 0)) ∧
    ((run ⟨10, 15000000000⟩ [.enqueue [0, 1, 2, 3, 4], .drain true 0] initState).cs.queue
        = [] ∧
     (run ⟨10, 15000000000⟩
        [.enqueue [0, 1, 2, 3, 4], .drain true 0] initState).cs.totalProcessed = 5) := by
  refine ⟨fun events => (ghostInv_run L events initState rfl rfl).2, ?_, pq_tp_eq L, by decide, by decide⟩
  intro e ds
  cases e with
  | enqueue items =>
    by_cases hi : items.length = 0 <;> simp [step, handleProcess, hi]
  | drain ok now =>
    by_cases hs : ds.stopped
    · simp [step, hs]
    · have := pq_tp_eq L ok now ds.cs
      simp only [step, hs, if_neg Bool.false_ne_true]
      omega

/-! ## C7: remaining capacity and batch sizing -/

/-- The spec's `RemainingCapacity` formula evaluates to the clamped form
of the `limit` the code computes: its survivor predicate
`¬ (timestamp + D < now)` coincides with the code's keep condition. -/
theorem specRemaining_eq (L : Limits) (now : Int) (ps : List (Int × Nat)) :
    specRemainingCapacity L now ps
      = ((L.number : Int) - (countsSum (prune L now ps) : Int)).toNat := by
  have hfil : (ps.filter fun p => decide (¬ p.1 + L.duration < now)) = prune L now ps := by
    unfold prune
    apply List.filter_congr
    intro p _
    simp only [decide_eq_decide]
    omega
  unfold specRemainingCapacity
  rw [hfil]

/-- One drain iteration, measured against the spec's wording: a
submission attempt happens iff the clamped remaining capacity is strictly
positive and the queue is non-empty, and the attempted batch size is
exactly `min remaining (queue length)`. -/
theorem pq_refines_spec (L : Limits) (ok : Bool) (now : Int) (s : ClientState) :
    (((processQueue L ok now s).result = .submitFailed ∨
        (processQueue L ok now s).result = .submitOk)
      ↔ (0 < specRemainingCapacity L now s.processedItems ∧ s.queue ≠ [])) ∧
    (processQueue L ok now s).submitted.length =
      (if 0 < specRemainingCapacity L now s.processedItems ∧ s.queue ≠ []
        then min (specRemainingCapacity L now s.processedItems) s.queue.length
        else 0) := by
  rw [specRemaining_eq]
  rcases processQueue_spec L ok now s with ⟨h0, he⟩ | ⟨h0, h1, he⟩ | ⟨h0, h1, he⟩
  · have hqnil : s.queue = [] := List.length_eq_zero.mp h0
    rw [he]
    constructor
    · simp [hqnil]
    · simp [hqnil]
  · have ht : ((L.number : Int) - (countsSum (prune L now s.processedItems) : Int)).toNat
        = 0 := by omega
    rw [he]
    constructor
    · simp [ht]
    · simp [ht]
  · have hqne : s.queue ≠ [] := fun hnil => h0 (by simp [hnil])
    have hpos : 0 < ((L.number : Int) - (countsSum (prune L now s.processedItems) : Int)).toNat := by
      omega
    cases ok with
    | false =>
      simp only [if_neg Bool.false_ne_true] at he
      rw [he]
      refine ⟨⟨fun _ => ⟨hpos, hqne⟩, fun _ => Or.inl rfl⟩, ?_⟩
      rw [if_pos ⟨hpos, hqne⟩]
      simp only [List.length_take]
      omega
    | true =>
      simp only [if_pos] at he
      rw [he]
      refine ⟨⟨fun _ => ⟨hpos, hqne⟩, fun _ => Or.inr rfl⟩, ?_⟩
      rw [if_pos ⟨hpos, hqne⟩]
      simp only [List.length_take]
      omega

/-- C7: per iteration, the remaining capacity is the spec's pruned,
clamped `N - Σ surviving counts`; a submission is attempted exactly when
it is strictly positive and the queue non-empty, with batch size
`min remaining (queue length)`; Scenario B: quota `(10, 15s)`, 25 items
enqueued — the first cycle submits 10, a second cycle in the same window
makes no attempt (quota exhausted, 0 submitted), and once the first entry
ages past 15s a cycle submits again. -/
theorem c7_remaining_capacity (L : Limits) (ok : Bool) (now : Int) (s : ClientState) :
    ((((processQueue L ok now s).result = .submitFailed ∨
        (processQueue L ok now s).result = .submitOk)
      ↔ (0 < specRemainingCapacity L now s.processedItems ∧ s.queue ≠ [])) ∧
     (processQueue L ok now s).submitted.length =
      (if 0 < specRemainingCapacity L now s.processedItems ∧ s.queue ≠ []
        then min (specRemainingCapacity L now s.processedItems) s.queue.length
        else 0)) ∧
    ((run ⟨10, 15000000000⟩ [.enqueue (List.range 25), .drain true 0]
        initState).cs.totalProcessed = 10 ∧
     (run ⟨10, 15000000000⟩ [.enqueue (List.range 25), .drain true 0]
        initState).cs.queue.length = 15 ∧
     (processQueue ⟨10, 15000000000⟩ true 1
        (run ⟨10, 15000000000⟩ [.enqueue (List.range 25), .drain true 0]
          initState).cs).result = .quotaExhausted ∧
     (processQueue ⟨10, 15000000000⟩ true 1
        (run ⟨10, 15000000000⟩ [.enqueue (List.range 25), .drain true 0]
          initState).cs).submitted = [] ∧
     (processQueue ⟨10, 15000000000⟩ true 15000000001
        (run ⟨10, 15000000000⟩ [.enqueue (List.range 25), .drain true 0]
          initState).cs).submitted.length = 10) :=
  ⟨pq_refines_spec L ok now s,
    by decide, by decide, by decide, by decide, by decide⟩

/-- Witness for C7: at quota `(3, 100)` with one queued item and an empty
window, the iteration attempts a submission (the remaining capacity is
positive and the queue non-empty). -/
theorem c7_witness :
    (processQueue ⟨3, 100⟩ false 0 ⟨[0], [], 0⟩).result = .submitFailed ∨
    (processQueue ⟨3, 100⟩ false 0 ⟨[0], [], 0⟩).result = .submitOk :=
  (c7_remaining_capacity ⟨3, 100⟩ false 0 ⟨[0], [], 0⟩).1.1.mpr ⟨by decide, by decide⟩

/-! ## C8: enqueue rejects exactly the empty batch -/

/-- C8: `HandleProcess` rejects exactly the empty item list (with the
`"No items provided"` error and no state change) and, for every non-empty
list, appends the items to the tail of the queue in order, touching
nothing else. -/
theorem c8_enqueue (items : List Item) (s : ClientState) :
    ((handleProcess items s).2.success = false ↔ items = []) ∧
    ((handleProcess items s).2.error = if items = [] then "No items provided" else "") ∧
    (items = [] → (handleProcess items s).1 = s) ∧
    (items ≠ [] →
      (handleProcess items s).1.queue = s.queue ++ items ∧
      (handleProcess items s).1.processedItems = s.processedItems ∧
      (handleProcess items s).1.totalProcessed = s.totalProcessed) := by
  by_cases hi : items = []
  · subst hi
    simp [handleProcess]
  · have hlen : items.length ≠ 0 := fun h => hi (List.length_eq_zero.mp h)
    simp [handleProcess, hlen, hi]

/-- Witness for C8: the empty enqueue leaves a concrete state unchanged;
a two-item enqueue appends at the tail. -/
theorem c8_witness :
    (handleProcess [] ⟨[5], [], 2⟩).1 = ⟨[5], [], 2⟩ ∧
    (handleProcess [7, 8] ⟨[5], [], 2⟩).1.queue = [5, 7, 8] :=
  ⟨(c8_enqueue [] ⟨[5], [], 2⟩).2.2.1 rfl,
   by rw [((c8_enqueue [7, 8] ⟨[5], [], 2⟩).2.2.2 (by decide)).1]; rfl⟩

/-! ## C10: removal after success takes exactly the submitted snapshot -/

/-- C10: the batch submitted by an iteration was snapshotted from the
queue before the network call; if producers append `extra` items while
the call is in flight, the subsequent `RemovePrefix` of the batch's
length still removes exactly the snapshotted items, and the appended
items stay in the queue unchanged in content and order. -/
theorem c10_removal_frame (L : Limits) (ok : Bool) (now : Int) (s : ClientState)
    (extra : List Item) :
    (s.queue ++ extra).take (processQueue L ok now s).submitted.length
      = (processQueue L ok now s).submitted ∧
    removePrefix (processQueue L ok now s).submitted.length (s.queue ++ extra)
      = s.queue.drop (processQueue L ok now s).submitted.length ++ extra := by
  obtain ⟨hle, hsub⟩ := pq_submitted_le L ok now s
  constructor
  · rw [List.take_append_eq_append_take, Nat.sub_eq_zero_of_le hle, List.take_zero,
      List.append_nil]
    exact hsub.symm
  · rw [removePrefix_eq_drop, List.drop_append_eq_append_drop,
      Nat.sub_eq_zero_of_le hle, List.drop_zero]
